import Mathlib

/-!
Verification of the sound-player mixing engine.

Shallow embedding of the sound-player library (status mixin, fade curves,
fade envelope, Linux PCM loop handling, audio config, mixer and layer
queue management), with theorems settling the specification claims.

Sources embedded:
* `sound_player/core/mixins/status.py` (`STATUS`, `StatusMixin`)
* `sound_player/core/mixins/fade.py` (`FadeCurve`, `FadeMixin._apply_curve`,
  constructor default)
* `sound_player/core/mixins/volume.py` (volume clamped to [0,1])
* `sound_player/core/audio_config.py` and `core/constants.py`
* `sound_player/platform/linux/sound.py` (`_get_raw_chunk`, `_check_loop`)
* `sound_player/mixer.py` (`AudioMixer.get_next_chunk`)
* `sound_player/player.py` (`SoundPlayer.get_next_chunk`)
* `sound_player/audiolayer.py` (`AudioLayer`, supervisor `_thread_task`)

The sample-counter fade envelope (`_get_fade_multiplier_array`) called by
`BaseSound.get_next_chunk` and exercised by `tests/test_fade_mixin.py` is
not present in the source tree (only its callers and tests are); it is
modelled from the specification, §4.2, and marked as such.
-/

namespace SoundPlayerModel

/-- Playback status, from `STATUS` in `core/mixins/status.py` (the missing
`core/state.py` re-exports the same enum, per its users in `player.py` and
`mixer.py`). -/
inductive STATUS where
  | error
  | stopped
  | playing
  | paused
deriving DecidableEq, Repr

/-- Result of a `StatusMixin` transition: the status field afterwards, and
whether the call raised (`ValueError` from the guard, or an exception
escaping the subclass hook). -/
structure TransResult where
  status : STATUS
  raised : Bool
deriving DecidableEq, Repr

/-- `StatusMixin.play`: silent no-op when already playing; raises when the
status is neither stopped nor paused; otherwise assigns `PLAYING` and THEN
invokes `_do_play`, so a raising hook leaves the status already set. -/
def statusPlay (st : STATUS) (hookRaises : Bool) : TransResult :=
  if st = STATUS.playing then ⟨STATUS.playing, false⟩
  else if st ≠ STATUS.stopped ∧ st ≠ STATUS.paused then ⟨st, true⟩
  else ⟨STATUS.playing, hookRaises⟩

/-- `StatusMixin.pause`: silent no-op when already paused; raises when not
playing; otherwise invokes `_do_pause` BEFORE assigning `PAUSED`, so a
raising hook leaves the previous status. -/
def statusPause (st : STATUS) (hookRaises : Bool) : TransResult :=
  if st = STATUS.paused then ⟨STATUS.paused, false⟩
  else if st ≠ STATUS.playing then ⟨st, true⟩
  else if hookRaises then ⟨st, true⟩
  else ⟨STATUS.paused, false⟩

/-- `StatusMixin.stop`: silent no-op when already stopped; raises when the
status is neither playing nor paused; otherwise invokes `_do_stop` BEFORE
assigning `STOPPED`. -/
def statusStop (st : STATUS) (hookRaises : Bool) : TransResult :=
  if st = STATUS.stopped then ⟨STATUS.stopped, false⟩
  else if st ≠ STATUS.playing ∧ st ≠ STATUS.paused then ⟨st, true⟩
  else if hookRaises then ⟨st, true⟩
  else ⟨STATUS.stopped, false⟩

/-- Fade curve types, from `FadeCurve` in `core/mixins/fade.py`. -/
inductive FadeCurve where
  | linear
  | exponential
  | logarithmic
  | scurve
deriving DecidableEq, Repr

/-- The default value of the `fade_curve` parameter of
`FadeMixin.__init__` in `core/mixins/fade.py` (line 39):
`fade_curve: FadeCurve = FadeCurve.LINEAR`. -/
def fadeMixinDefaultCurve : FadeCurve := FadeCurve.linear

/-- `FadeMixin._apply_curve` from `core/mixins/fade.py` (lines 163-182):
exponential is `progress**2`, logarithmic is
`math.log10(1 + progress * 9) / math.log10(10)`, s-curve is
`progress * progress * (3 - 2 * progress)`, linear returns the progress. -/
noncomputable def applyCurve : FadeCurve → ℝ → ℝ
  | FadeCurve.exponential, p => p ^ 2
  | FadeCurve.logarithmic, p => Real.logb 10 (1 + p * 9) / Real.logb 10 10
  | FadeCurve.scurve, p => p * p * (3 - 2 * p)
  | FadeCurve.linear, p => p

/-- The curve functions as the specification words them (§4.2 step 4):
Linear `p`; Exponential `p·p`; Logarithmic `sin(p·π/2)`;
SCurve `p·p·(3−2p)`. Used to compare the source against the spec. -/
noncomputable def specCurveFun : FadeCurve → ℝ → ℝ
  | FadeCurve.linear, p => p
  | FadeCurve.exponential, p => p * p
  | FadeCurve.logarithmic, p => Real.sin (p * Real.pi / 2)
  | FadeCurve.scurve, p => p * p * (3 - 2 * p)

/-- Fade kind of the sample-counter envelope (spec §3 FadeKind; the code's
`FadeState` additionally has crossfade variants, used by the layer model
below). -/
inductive FadeKind where
  | noFade
  | fadingIn
  | fadingOut
deriving DecidableEq, Repr

/-- Modelled from the spec: the sample-counter fade envelope state (§3
FadeEnvelope). The implementing code (`FadeMixin._get_fade_multiplier_array`
and its `_fade_total_samples` counters, called by
`BaseSound.get_next_chunk` and tested by `tests/test_fade_mixin.py`) is
not present in the source tree. -/
structure FadeEnvelope where
  kind : FadeKind
  curve : FadeCurve
  start_gain : ℝ
  target_gain : ℝ
  samples_processed : ℕ
  total_samples : ℕ

/-- Modelled from the spec: the gain of the k-th sample of the next chunk
(§4.2 steps 2-5): linear progress `(samples_processed+k+1)/total_samples`
clamped to 1, passed through the curve, interpolating start to target. -/
noncomputable def sampleGain (e : FadeEnvelope) (k : ℕ) : ℝ :=
  e.start_gain + (e.target_gain - e.start_gain) *
    specCurveFun e.curve
      (min (((e.samples_processed + k + 1 : ℕ) : ℝ) / (e.total_samples : ℝ)) 1)

/-- Replace the last element of a list (spec §4.2 step 6: the last
multiplier of the chunk that crosses the fade boundary is overwritten with
exactly the target gain). -/
def setLast : List ℝ → ℝ → List ℝ
  | [], _ => []
  | [_], x => [x]
  | a :: b :: rest, x => a :: setLast (b :: rest) x

/-- Modelled from the spec: `multipliers(n)` of the sample-counter envelope
(§4.2): with no fade, `n` copies of the target gain; otherwise the curved
ramp for the next `n` samples; when the chunk reaches `total_samples` the
kind becomes `noFade`, the counter resets and the last multiplier is pinned
to the target gain. -/
noncomputable def multipliers (e : FadeEnvelope) (n : ℕ) :
    List ℝ × FadeEnvelope :=
  if e.kind = FadeKind.noFade then (List.replicate n e.target_gain, e)
  else
    let gains := (List.range n).map (sampleGain e)
    if e.total_samples ≤ e.samples_processed + n then
      (setLast gains e.target_gain,
        { e with kind := FadeKind.noFade, samples_processed := 0 })
    else
      (gains, { e with samples_processed := e.samples_processed + n })

/-! ## Linux PCM decoder loop handling (`platform/linux/sound.py`) -/

/-- Decoder-side state of a `LinuxPCMSound` on the raw (no-conversion)
path: the file length in frames, the `_loop` setting (`none` = play once,
`some (-1)` = infinite, `some k` = finite), the sound file's read cursor,
the `_loop_count` counter, whether `_sound_file` is open, and the
`StatusMixin` status. -/
structure PCMState where
  fileFrames : ℕ
  loop : Option ℤ
  pos : ℕ
  loopCount : ℕ
  fileOpen : Bool
  status : STATUS
deriving DecidableEq, Repr

/-- `soundfile.read(frames)`: returns up to `frames` frames from the
current cursor, fewer only at end of stream. -/
def pcmRead (st : PCMState) (frames : ℕ) : ℕ :=
  min frames (st.fileFrames - st.pos)

/-- `LinuxPCMSound._check_loop` (lines 344-356): increments `_loop_count`;
returns `True` for infinite loop (`_loop == -1`), else
`_loop is not None and _loop_count < _loop`. -/
def checkLoop (st : PCMState) : Bool × PCMState :=
  let st1 := { st with loopCount := st.loopCount + 1 }
  if st1.loop = some (-1) then (true, st1)
  else
    match st1.loop with
    | some k => (decide ((st1.loopCount : ℤ) < k), st1)
    | none => (false, st1)

/-- `LinuxPCMSound._get_raw_chunk` (lines 176-206), tracking the number of
frames in the returned array (`none` = the Python `None` return). On
underflow it consults `_check_loop`; if looping continues it seeks to 0 and
reads the remainder once; otherwise it closes the file (`_do_stop`), sets
the status to `STOPPED` and returns `None`, discarding the frames read in
this call. -/
def rawChunk (st : PCMState) (size : ℕ) : Option ℕ × PCMState :=
  if ¬ st.fileOpen then (none, st)
  else
    let d1 := pcmRead st size
    let st1 := { st with pos := st.pos + d1 }
    if d1 < size then
      let cl := checkLoop st1
      if cl.1 then
        let extra := min (size - d1) cl.2.fileFrames
        (some (d1 + extra), { cl.2 with pos := extra })
      else
        (none, { cl.2 with fileOpen := false, pos := 0, loopCount := 0,
                            status := STATUS.stopped })
    else (some d1, st1)

/-- State of a freshly opened sound after `play()` (`_do_play` opens the
file and resets `_position` and `_loop_count`). -/
def initPCM (fileFrames : ℕ) (loop : Option ℤ) : PCMState :=
  ⟨fileFrames, loop, 0, 0, true, STATUS.playing⟩

/-- Drive `_get_raw_chunk` as `BaseSound.get_next_chunk` does (no fade
active: chunks pass through unchanged), summing the emitted frame counts
until the sound leaves the `PLAYING` status; `fuel` bounds the number of
pulls. -/
def pullFrames : ℕ → PCMState → ℕ → ℕ
  | 0, _, _ => 0
  | fuel + 1, st, size =>
    if st.status ≠ STATUS.playing then 0
    else
      match rawChunk st size with
      | (some k, st1) => k + pullFrames fuel st1 size
      | (none, _) => 0

/-! ## Audio configuration (`core/audio_config.py`, `core/constants.py`) -/

/-- Sample dtypes the claims discuss. -/
inductive Dtype where
  | int16
  | int32
  | float32
deriving DecidableEq, Repr

/-- `numpy.dtype.itemsize` for the modelled dtypes. -/
def dtypeItemsize : Dtype → ℤ
  | Dtype.int16 => 2
  | Dtype.int32 => 4
  | Dtype.float32 => 4

/-- `MAX_INT16` from `core/constants.py`. -/
def MAX_INT16 : ℤ := 2 ^ 15 - 1

/-- `MAX_INT32` from `core/constants.py`. -/
def MAX_INT32 : ℤ := 2 ^ 31 - 1

/-- `MIN_INT16` from `core/constants.py`. -/
def MIN_INT16 : ℤ := -(2 ^ 15)

/-- `MIN_INT32` from `core/constants.py`. -/
def MIN_INT32 : ℤ := -(2 ^ 31)

/-- `AudioConfig` dataclass fields. -/
structure AudioConfig where
  sample_rate : ℤ
  channels : ℤ
  sample_width : ℤ
  buffer_size : ℤ
  dtype : Dtype
deriving DecidableEq, Repr

/-- `AudioConfig.__post_init__` validation: channels in {1,2}, positive
sample rate and buffer size, sample width in {2,4}; then the sample width
is auto-corrected to the dtype's item size when that size is 2 or 4. -/
def mkAudioConfig (sample_rate channels sample_width buffer_size : ℤ)
    (dtype : Dtype) : Except String AudioConfig :=
  if ¬(channels = 1 ∨ channels = 2) then Except.error "channels must be 1 or 2"
  else if sample_rate ≤ 0 then Except.error "sample_rate must be positive"
  else if buffer_size ≤ 0 then Except.error "buffer_size must be positive"
  else if ¬(sample_width = 2 ∨ sample_width = 4) then
    Except.error "sample_width must be 2 or 4"
  else
    let expected := dtypeItemsize dtype
    let sw := if (expected = 2 ∨ expected = 4) ∧ sample_width ≠ expected
      then expected else sample_width
    Except.ok ⟨sample_rate, channels, sw, buffer_size, dtype⟩

/-- `AudioConfig.max_sample_value`: `MAX_INT16` for int16, `MAX_INT32` for
int32, and 0 for every other dtype. -/
def maxSampleValue (cfg : AudioConfig) : ℤ :=
  if cfg.dtype = Dtype.int16 then MAX_INT16
  else if cfg.dtype = Dtype.int32 then MAX_INT32
  else 0

/-- `AudioConfig.min_sample_value`: `MIN_INT16` for int16, `MIN_INT32` for
int32, and 0 for every other dtype. -/
def minSampleValue (cfg : AudioConfig) : ℤ :=
  if cfg.dtype = Dtype.int16 then MIN_INT16
  else if cfg.dtype = Dtype.int32 then MIN_INT32
  else 0

/-- `np.maximum(x, lo)` on one sample. -/
def maxQ (x lo : ℚ) : ℚ := if x < lo then lo else x

/-- `np.minimum(y, hi)` on one sample. -/
def minQ (y hi : ℚ) : ℚ := if hi < y then hi else y

/-- `np.clip(x, lo, hi)` on one sample: `min (max x lo) hi`. -/
def clipQ (x lo hi : ℚ) : ℚ := minQ (maxQ x lo) hi

/-- Truncation toward zero, as `ndarray.astype` does when casting float
samples to an integer dtype (values are within range after clipping). -/
def truncQ (q : ℚ) : ℤ := if 0 ≤ q then ⌊q⌋ else -⌊-q⌋

/-- `astype(config.dtype)` on one sample: truncation for the integer
dtypes, identity for float32. -/
def castSample (cfg : AudioConfig) (q : ℚ) : ℚ :=
  match cfg.dtype with
  | Dtype.int16 => (truncQ q : ℚ)
  | Dtype.int32 => (truncQ q : ℚ)
  | Dtype.float32 => q

/-! ## AudioMixer (`mixer.py`)

Frames are modelled single-channel (one rational per frame); the
channel-count conversion of `_convert_channels` is not modelled, chunks
are taken at the mixer's channel count. -/

/-- The slice of a sound the mixer reads: its `status()`, its `_volume`
attribute (`None` possible), and the chunk its `get_next_chunk` returns
for this pull (`none` = Python `None`). -/
structure MSound where
  status : STATUS
  volume : Option ℚ
  chunk : Option (List ℚ)
deriving DecidableEq, Repr

/-- `sound._volume / 100.0 if sound._volume is not None else 1.0` from
`AudioMixer.get_next_chunk` (line 141). -/
def soundVol (s : MSound) : ℚ :=
  match s.volume with
  | some v => v / 100
  | none => 1

/-- `AudioMixer._adjust_length`: pad a short chunk with zeros, truncate a
long one to the buffer size. -/
def adjustLength (c : List ℚ) (n : ℕ) : List ℚ :=
  if c.length < n then c ++ List.replicate (n - c.length) 0
  else c.take n

/-- Element-wise sum of two equal-length sample buffers (`mixed += chunk`). -/
def listAdd (a b : List ℚ) : List ℚ := List.zipWith (· + ·) a b

/-- The loop body of `AudioMixer.get_next_chunk`: a `None` or empty chunk
is skipped (`continue`), otherwise the chunk is scaled by
`_volume / 100`, adjusted to the buffer length and accumulated into the
mix (`mixed += chunk_float`). -/
def mixStep (n : ℕ) (acc : List ℚ) (s : MSound) : List ℚ :=
  match s.chunk with
  | none => acc
  | some c =>
    if c.length = 0 then acc
    else listAdd acc (adjustLength (c.map (fun x => x * soundVol s)) n)

/-- `AudioMixer.get_next_chunk` (lines 113-167): silence when no added
sound has status `PLAYING`; otherwise the playing sounds' chunks are
accumulated by `mixStep`, and the sum is multiplied by the mixer's own
volume, clipped to the config's sample bounds and cast to its dtype. -/
def mixerNextChunk (cfg : AudioConfig) (mixerVolume : ℚ)
    (sounds : List MSound) : List ℚ :=
  let n := cfg.buffer_size.toNat
  let active := sounds.filter (fun s => s.status = STATUS.playing)
  if active.isEmpty then List.replicate n 0
  else
    let mixed := active.foldl (mixStep n) (List.replicate n 0)
    mixed.map (fun x =>
      castSample cfg (clipQ (x * mixerVolume) ((minSampleValue cfg : ℤ) : ℚ)
        ((maxSampleValue cfg : ℤ) : ℚ)))

/-- The layer chunk as the claim words it: the sample-wise sum of the
chunks produced by the sounds of the active and fading-out sets, each
sound's own volume already applied by the sound, multiplied by the layer's
volume; a `None` chunk contributes silence. -/
def specLayerChunk (layerVolume : ℚ) (chunks : List (Option (List ℚ)))
    (n : ℕ) : List ℚ :=
  (List.range n).map (fun i =>
    ((chunks.map (fun oc => (oc.getD []).getD i 0)).sum) * layerVolume)

/-- Per-sound, per-sample contribution of `AudioMixer.get_next_chunk`
before the master multiply: zero for a `None` or empty chunk, otherwise
the chunk sample scaled by `_volume / 100`. -/
def mixerContrib (s : MSound) (i : ℕ) : ℚ :=
  match s.chunk with
  | none => 0
  | some c => if c.length = 0 then 0 else c.getD i 0 * soundVol s

/-! ## SoundPlayer master mix (`player.py`) -/

/-- The slice of an `AudioLayer` the master mix reads: its status and the
chunk its `get_next_chunk` returns. -/
structure LayerOut where
  status : STATUS
  chunk : Option (List ℚ)
deriving DecidableEq, Repr

/-- `SoundPlayer.get_next_chunk` (lines 215-249): zeros when no layer has
status `PLAYING`; otherwise the playing layers' chunks (skipping `None`
and empty ones) are summed, multiplied by the master volume, clipped to
`[min_sample_value, max_sample_value]` and cast to the config dtype.
`numpy` raises on a shape mismatch, modelled as `none`. -/
def playerNextChunk (cfg : AudioConfig) (layers : List LayerOut)
    (masterVolume : ℚ) : Option (List ℚ) :=
  let n := cfg.buffer_size.toNat
  let active := layers.filter (fun l => l.status = STATUS.playing)
  if active.isEmpty then some (List.replicate n 0)
  else
    let mixed := active.foldl
      (fun acc l =>
        Option.bind acc (fun a =>
          match l.chunk with
          | none => some a
          | some c =>
            if c.length = 0 then some a
            else if c.length = n then some (listAdd a c)
            else none))
      (some (List.replicate n 0))
    mixed.map (fun m => m.map (fun x =>
      castSample cfg (clipQ (x * masterVolume) ((minSampleValue cfg : ℤ) : ℚ)
        ((maxSampleValue cfg : ℤ) : ℚ))))

/-! ## AudioLayer queue management (`audiolayer.py`)

The layer model tracks, for every sound, the two fields its supervisor
reads: the `StatusMixin` status and the `FadeMixin` fade state. The
sound-side fields `enqueue` also writes (`_loop`, `_fade_curve`,
fade-out duration) do not feed back into the queue logic and are not
tracked. `AudioMixer.add_sound`/`remove_sound` bookkeeping mirrors the
queues and is likewise omitted. -/

/-- `FadeState` from `core/mixins/fade.py`. -/
inductive FadeState where
  | fsNone
  | fadingIn
  | fadingOut
  | crossfadeOut
  | crossfadeIn
deriving DecidableEq, Repr

/-- A sound as the layer supervisor sees it. -/
structure Snd where
  status : STATUS
  fstate : FadeState
deriving DecidableEq, Repr

/-- `sound.play()`: `none` models the `ValueError` raised from the
`ERROR` status (the transition guard of `StatusMixin.play`). -/
def sndPlay (s : Snd) : Option Snd :=
  if s.status = STATUS.playing then some s
  else if s.status = STATUS.stopped ∨ s.status = STATUS.paused then
    some { s with status := STATUS.playing }
  else none

/-- `sound.pause()` under the `StatusMixin.pause` guard. -/
def sndPause (s : Snd) : Option Snd :=
  if s.status = STATUS.paused then some s
  else if s.status ≠ STATUS.playing then none
  else some { s with status := STATUS.paused }

/-- `sound.stop()` under the `StatusMixin.stop` guard. -/
def sndStop (s : Snd) : Option Snd :=
  if s.status = STATUS.stopped then some s
  else if s.status = STATUS.playing ∨ s.status = STATUS.paused then
    some { s with status := STATUS.stopped }
  else none

/-- Iterate an operation over a list of sounds as the Python `for` loops
do: a raising call (`none`) aborts the loop, leaving the remaining sounds
untouched (they all stay in the list). The Bool reports whether a raise
occurred. -/
def broadcastR (f : Snd → Option Snd) : List Snd → List Snd × Bool
  | [] => ([], false)
  | s :: rest =>
    match f s with
    | some s1 =>
      let r := broadcastR f rest
      (s1 :: r.1, r.2)
    | none => (s :: rest, true)

/-- The `AudioLayer` state: `StatusMixin` status, `_concurrency`,
`_replace_on_add`, `_loop`, the default fade durations, and the three
sound collections (`_queue_waiting`, `_queue_current`,
`_fading_out_sounds`). -/
structure Layer where
  status : STATUS
  concurrency : ℤ
  replaceOnAdd : Bool
  loop : Option ℤ
  fadeInDuration : Option ℚ
  fadeOutDuration : Option ℚ
  queueWaiting : List Snd
  queueCurrent : List Snd
  fadingOut : List Snd
deriving DecidableEq, Repr

/-- `AudioLayer._check_replace_loop` (lines 79-85): `True` means the
`ValueError` is raised (`replace=False` with `loop=-1`). -/
def checkReplaceLoop (replace : Bool) (loop : Option ℤ) : Bool :=
  ¬replace ∧ loop = some (-1)

/-- `AudioLayer.__init__`: the replace/loop check runs before any field is
assigned, so a rejected combination constructs nothing. -/
def mkAudioLayer (concurrency : ℤ) (replace : Bool) (loop : Option ℤ)
    (fadeIn fadeOut : Option ℚ) : Option Layer :=
  if checkReplaceLoop replace loop then none
  else some ⟨STATUS.stopped, concurrency, replace, loop, fadeIn, fadeOut,
    [], [], []⟩

/-- `AudioLayer.set_concurrency`: unguarded assignment. -/
def setConcurrencyL (L : Layer) (n : ℤ) : Layer := { L with concurrency := n }

/-- `AudioLayer.set_replace`: the check raises (Bool `true`) before the
assignment, leaving the layer unchanged. -/
def setReplaceL (L : Layer) (b : Bool) : Layer × Bool :=
  if checkReplaceLoop b L.loop then (L, true)
  else ({ L with replaceOnAdd := b }, false)

/-- `AudioLayer.set_loop`: the check raises before the assignment. -/
def setLoopL (L : Layer) (lp : Option ℤ) : Layer × Bool :=
  if checkReplaceLoop L.replaceOnAdd lp then (L, true)
  else ({ L with loop := lp }, false)

/-- `x is not None and x > 0` on an optional duration. -/
def posDuration : Option ℚ → Bool
  | some d => decide (0 < d)
  | none => false

/-- `AudioLayer.enqueue` with default arguments: applies the layer's
defaults to the sound (of the tracked fields, `fade_in` arms the sound's
fade-in state when the effective duration is positive) and appends it to
the waiting queue. -/
def enqueueL (L : Layer) (s : Snd) : Layer :=
  let s1 := if posDuration L.fadeInDuration
    then { s with fstate := FadeState.fadingIn } else s
  { L with queueWaiting := L.queueWaiting ++ [s1] }

/-- `AudioLayer.clear`: stops every sound in `_queue_current` and
`_fading_out_sounds` and empties all three collections; a sound whose
`stop()` raises aborts the method with the lists as they stand. -/
def clearL (L : Layer) : Layer × Bool :=
  let rc := broadcastR sndStop L.queueCurrent
  if rc.2 then ({ L with queueCurrent := rc.1 }, true)
  else
    let rf := broadcastR sndStop L.fadingOut
    if rf.2 then ({ L with queueCurrent := rc.1, fadingOut := rf.1 }, true)
    else ({ L with queueWaiting := [], queueCurrent := [], fadingOut := [] },
      false)

/-- `AudioLayer.play` through `StatusMixin.play`: the status is set to
`PLAYING` before `_do_play` broadcasts `play()` over `_queue_current`
(the supervisor thread object is not modelled; `tickL` models its
iterations). -/
def layerPlayL (L : Layer) : Layer :=
  if L.status = STATUS.playing then L
  else if L.status ≠ STATUS.stopped ∧ L.status ≠ STATUS.paused then L
  else { L with status := STATUS.playing
                queueCurrent := (broadcastR sndPlay L.queueCurrent).1 }

/-- `AudioLayer.pause` through `StatusMixin.pause`: `_do_pause` broadcasts
`pause()` over `_queue_current` before the status assignment, so a raise
leaves the layer `PLAYING`. -/
def layerPauseL (L : Layer) : Layer :=
  if L.status = STATUS.paused then L
  else if L.status ≠ STATUS.playing then L
  else
    let r := broadcastR sndPause L.queueCurrent
    if r.2 then { L with queueCurrent := r.1 }
    else { L with queueCurrent := r.1, status := STATUS.paused }

/-- `AudioLayer.stop` through `StatusMixin.stop`: `_do_stop` runs
`clear()` before the status assignment. -/
def layerStopL (L : Layer) : Layer :=
  if L.status = STATUS.stopped then L
  else if L.status ≠ STATUS.playing ∧ L.status ≠ STATUS.paused then L
  else
    let r := clearL L
    if r.2 then r.1
    else { r.1 with status := STATUS.stopped }

/-- Step 4 of `_thread_task`: `while concurrency > len(queue_current) and
len(queue_waiting): sound = popleft(); sound.play(); append`. A raising
`play()` drops the popped sound and aborts the loop (the supervisor
thread's exception handler re-raises). Returns the new current and
waiting queues. -/
def addLoop (c : ℤ) : List Snd → List Snd → List Snd × List Snd
  | cur, [] => (cur, [])
  | cur, w :: ws =>
    if (cur.length : ℤ) < c then
      match sndPlay w with
      | some w1 => addLoop c (cur ++ [w1]) ws
      | none => (cur, ws)
    else (cur, w :: ws)

/-- Steps 1-2 of `_thread_task` (lines 268-293): remove stopped sounds
from the current queue and move `FADING_OUT` sounds to the fading-out
list (sequential crossfade); then remove stopped or no-longer-fading
sounds from the fading-out list. -/
def tickReap (L : Layer) : Layer :=
  let cur1 := L.queueCurrent.filter
    (fun s => ¬(s.status = STATUS.stopped ∨ s.fstate = FadeState.fadingOut))
  let moved := L.queueCurrent.filter
    (fun s => ¬s.status = STATUS.stopped ∧ s.fstate = FadeState.fadingOut)
  let fad1 := (L.fadingOut ++ moved).filter
    (fun s => ¬(s.status = STATUS.stopped ∨ s.fstate = FadeState.fsNone))
  { L with queueCurrent := cur1, fadingOut := fad1 }

/-- Step 3 of `_thread_task` (lines 295-320), replace-mode eviction: when
`len(current) + len(waiting) > concurrency`, drop the oldest current
sounds; with a positive default fade-out duration they are crossfaded
into the fading-out list, otherwise each is stopped and discarded — a
sound whose `stop()` raises (`ERROR` status) aborts the tick (Bool
`true`), the dropped sounds staying dropped. -/
def tickEvict (L : Layer) : Layer × Bool :=
  let placeNeeded : ℤ :=
    (L.queueCurrent.length : ℤ) + (L.queueWaiting.length : ℤ) - L.concurrency
  if L.replaceOnAdd ∧ 0 < placeNeeded ∧ 0 < L.queueCurrent.length then
    let count := min L.queueCurrent.length placeNeeded.toNat
    let removed := L.queueCurrent.take count
    let cur2 := L.queueCurrent.drop count
    if posDuration L.fadeOutDuration then
      ({ L with queueCurrent := cur2
                fadingOut := L.fadingOut ++ removed.map
                  (fun s => { s with fstate := FadeState.fadingOut }) },
        false)
    else
      ({ L with queueCurrent := cur2 },
        removed.any (fun s => s.status = STATUS.error))
  else (L, false)

/-- Step 4 of `_thread_task` (lines 322-328): promote waiting sounds
while slots remain. -/
def tickPromote (L : Layer) : Layer :=
  let added := addLoop L.concurrency L.queueCurrent L.queueWaiting
  { L with queueCurrent := added.1, queueWaiting := added.2 }

/-- One `PLAYING`-status iteration of `AudioLayer._thread_task`
(lines 262-328): reap, evict under replace mode, then promote — unless
the eviction raised, which ends the iteration (and kills the thread)
early. -/
def tickBody (L : Layer) : Layer :=
  let r := tickEvict (tickReap L)
  if r.2 then r.1 else tickPromote r.1

/-- One iteration of the supervisor loop: the body only runs while the
layer status is `PLAYING` (when `STOPPED` the thread exits, when paused
it just sleeps). -/
def tickL (L : Layer) : Layer :=
  if L.status = STATUS.playing then tickBody L else L

/-- The public operations of the claim: enqueue, play, pause, stop,
clear, set_concurrency, set_replace, set_loop, and a supervisor tick. -/
inductive LOp where
  | enq (s : Snd)
  | play
  | pause
  | stop
  | clear
  | setConc (n : ℤ)
  | setRepl (b : Bool)
  | setLoopOp (lp : Option ℤ)
  | tick
deriving DecidableEq, Repr

/-- Apply one public operation to a layer (a raising setter leaves the
layer unchanged, as the check precedes the assignment). -/
def stepL (L : Layer) : LOp → Layer
  | LOp.enq s => enqueueL L s
  | LOp.play => layerPlayL L
  | LOp.pause => layerPauseL L
  | LOp.stop => layerStopL L
  | LOp.clear => (clearL L).1
  | LOp.setConc n => setConcurrencyL L n
  | LOp.setRepl b => (setReplaceL L b).1
  | LOp.setLoopOp lp => (setLoopL L lp).1
  | LOp.tick => tickL L

/-- Run a sequence of public operations. -/
def runL (L : Layer) : List LOp → Layer
  | [] => L
  | op :: ops => runL (stepL L op) ops

/-- The claimed invariant: the current (active) set never exceeds the
concurrency value. -/
def InvL (L : Layer) : Prop := (L.queueCurrent.length : ℤ) ≤ L.concurrency

instance : DecidablePred InvL := fun L =>
  inferInstanceAs (Decidable ((L.queueCurrent.length : ℤ) ≤ L.concurrency))

/-- An operation is benign when any `set_concurrency` it performs keeps
the value at or above the current active-set size. -/
def goodOp (L : Layer) : LOp → Bool
  | LOp.setConc n => decide ((L.queueCurrent.length : ℤ) ≤ n)
  | _ => true

/-- A trace is benign when each of its operations is, at the state where
it runs. -/
def goodTrace : Layer → List LOp → Bool
  | _, [] => true
  | L, op :: ops => goodOp L op && goodTrace (stepL L op) ops

/-! ## Theorems -/

attribute [local semireducible] Rat.add Rat.sub Rat.mul Rat.inv

/-- C6: play() when already Playing, pause() when already Paused and
stop() when already Stopped return silently with no state change;
pause() from Stopped and any transition attempted from Error raise the
state-transition `ValueError` and leave the status unchanged (whatever
the subclass hooks would do). -/
theorem status_transition_guards : ∀ hook : Bool,
    statusPlay STATUS.playing hook = ⟨STATUS.playing, false⟩ ∧
    statusPause STATUS.paused hook = ⟨STATUS.paused, false⟩ ∧
    statusStop STATUS.stopped hook = ⟨STATUS.stopped, false⟩ ∧
    statusPause STATUS.stopped hook = ⟨STATUS.stopped, true⟩ ∧
    statusPlay STATUS.error hook = ⟨STATUS.error, true⟩ ∧
    statusPause STATUS.error hook = ⟨STATUS.error, true⟩ ∧
    statusStop STATUS.error hook = ⟨STATUS.error, true⟩ := by decide

/-- C9: `StatusMixin.play` assigns `PLAYING` before invoking `_do_play`,
so a raising hook leaves the object Playing; `pause` and `stop` invoke
their hooks first, so a raising hook leaves the previous status. -/
theorem play_sets_status_before_hook :
    statusPlay STATUS.stopped true = ⟨STATUS.playing, true⟩ ∧
    statusPlay STATUS.paused true = ⟨STATUS.playing, true⟩ ∧
    statusPause STATUS.playing true = ⟨STATUS.playing, true⟩ ∧
    statusStop STATUS.playing true = ⟨STATUS.playing, true⟩ ∧
    statusStop STATUS.paused true = ⟨STATUS.paused, true⟩ := by decide

/-- C8: the `FadeMixin` constructor's default `fade_curve` is `LINEAR`,
not `SCURVE` as the spec and `tests/test_fade_mixin.py`
(`test_default_curve_is_scurve`, `test_initial_fade_curve_is_scurve`)
require. -/
theorem default_fade_curve_is_linear :
    fadeMixinDefaultCurve = FadeCurve.linear ∧
    FadeCurve.linear ≠ FadeCurve.scurve := by decide

/-- C7: `replace=False` with `loop=-1` is rejected with a `ValueError` at
construction, at `set_replace(False)` when the loop is `-1`, and at
`set_loop(-1)` when replace is `False`; the rejecting setters leave the
layer unchanged. -/
theorem replace_loop_rejected :
    (∀ (c : ℤ) (fi fo : Option ℚ),
      mkAudioLayer c false (some (-1)) fi fo = none) ∧
    (∀ L : Layer, L.loop = some (-1) → setReplaceL L false = (L, true)) ∧
    (∀ L : Layer, L.replaceOnAdd = false →
      setLoopL L (some (-1)) = (L, true)) := by
  refine ⟨fun c fi fo => ?_, fun L h => ?_, fun L h => ?_⟩
  · simp [mkAudioLayer, checkReplaceLoop]
  · simp [setReplaceL, checkReplaceLoop, h]
  · simp [setLoopL, checkReplaceLoop, h]

/-- Witness for C7 at a concrete layer whose loop is `-1` (respectively
whose replace flag is off). -/
theorem replace_loop_rejected_witness :
    mkAudioLayer 1 false (some (-1)) none none = none ∧
    setReplaceL ⟨STATUS.stopped, 1, true, some (-1), none, none, [], [], []⟩
      false =
      (⟨STATUS.stopped, 1, true, some (-1), none, none, [], [], []⟩, true) ∧
    setLoopL ⟨STATUS.stopped, 1, false, none, none, none, [], [], []⟩
      (some (-1)) =
      (⟨STATUS.stopped, 1, false, none, none, none, [], [], []⟩, true) :=
  ⟨replace_loop_rejected.1 1 none none,
    replace_loop_rejected.2.1 _ rfl,
    replace_loop_rejected.2.2 _ rfl⟩

/-- C2 counterexample: at progress `1/9` the code's logarithmic curve
`log10(1 + 9p)/log10(10) = log10 2 ≈ 0.301` differs from the spec's
`sin(p·π/2) = sin(π/18) ≈ 0.174`: the former exceeds `29/100`, the latter
stays below it. -/
theorem apply_curve_log_counterexample :
    applyCurve FadeCurve.logarithmic (1 / 9) ≠
      specCurveFun FadeCurve.logarithmic (1 / 9) := by
  have harg : (1 : ℝ) + (1 / 9) * 9 = 2 := by norm_num
  have hlogb : (29 : ℝ) / 100 < Real.logb 10 2 := by
    rw [Real.lt_logb_iff_rpow_lt (by norm_num) (by norm_num)]
    have h100 : ((10 : ℝ) ^ ((29 : ℝ) / 100)) ^ (100 : ℕ) < 2 ^ (100 : ℕ) := by
      rw [← Real.rpow_natCast ((10 : ℝ) ^ ((29 : ℝ) / 100)) 100,
        ← Real.rpow_mul (by norm_num : (0 : ℝ) ≤ 10)]
      have he : (29 : ℝ) / 100 * ((100 : ℕ) : ℝ) = ((29 : ℕ) : ℝ) := by
        push_cast
        norm_num
      rw [he, Real.rpow_natCast]
      norm_num
    exact lt_of_pow_lt_pow_left₀ 100 (by norm_num) h100
  have hsin : Real.sin ((1 / 9) * Real.pi / 2) < 29 / 100 := by
    have hp : (1 / 9 : ℝ) * Real.pi / 2 = Real.pi / 18 := by ring
    rw [hp]
    have h1 : Real.sin (Real.pi / 18) < Real.pi / 18 :=
      Real.sin_lt (by positivity)
    have h2 : Real.pi / 18 < 29 / 100 := by
      have h3 := Real.pi_lt_d2
      norm_num at h3 ⊢
      linarith
    linarith
  simp only [applyCurve, specCurveFun, harg,
    Real.logb_self_eq_one (by norm_num : (1 : ℝ) < 10), div_one]
  intro hcontra
  rw [hcontra] at hlogb
  linarith

/-- C2 amended: the code's curves agree with the spec for Linear,
Exponential and SCurve; the Logarithmic curve however is
`log10(1 + 9p) / log10 10` (a base-10 logarithmic ramp), not
`sin(p·π/2)`. -/
theorem apply_curve_amended : ∀ p : ℝ,
    applyCurve FadeCurve.linear p = specCurveFun FadeCurve.linear p ∧
    applyCurve FadeCurve.exponential p = specCurveFun FadeCurve.exponential p ∧
    applyCurve FadeCurve.scurve p = specCurveFun FadeCurve.scurve p ∧
    applyCurve FadeCurve.logarithmic p = Real.logb 10 (1 + p * 9) := by
  intro p
  refine ⟨rfl, ?_, rfl, ?_⟩
  · simp only [applyCurve, specCurveFun, sq]
  · simp only [applyCurve,
      Real.logb_self_eq_one (by norm_num : (1 : ℝ) < 10), div_one]

/-- The gain of sample `a + k` of an envelope equals the gain of sample
`k` after the counter has advanced by `a`: gains depend only on the
cumulative sample count. -/
theorem sampleGain_shift (e : FadeEnvelope) (a k : ℕ) :
    sampleGain e (a + k) =
      sampleGain { e with samples_processed := e.samples_processed + a } k := by
  have h : e.samples_processed + (a + k) + 1 =
      e.samples_processed + a + k + 1 := by omega
  simp only [sampleGain, h]

/-- The raw gain ramp of a combined chunk splits at any point into the
ramp before and the ramp after advancing the counter. -/
theorem gains_split (e : FadeEnvelope) (a b : ℕ) :
    (List.range (a + b)).map (sampleGain e) =
      (List.range a).map (sampleGain e) ++
        (List.range b).map
          (sampleGain { e with samples_processed := e.samples_processed + a }) := by
  rw [List.range_add, List.map_append, List.map_map]
  congr 1
  refine List.map_congr_left fun k _ => ?_
  simpa using sampleGain_shift e a k

/-- `setLast` only touches the final element, so it commutes with
prepending a prefix. -/
theorem setLast_append (l1 l2 : List ℝ) (x : ℝ) (h : l2 ≠ []) :
    setLast (l1 ++ l2) x = l1 ++ setLast l2 x := by
  induction l1 with
  | nil => rfl
  | cons a rest ih =>
    cases hr : rest ++ l2 with
    | nil =>
      rcases List.append_eq_nil.mp hr with ⟨-, h2⟩
      exact absurd h2 h
    | cons y ys =>
      show setLast (a :: (rest ++ l2)) x = a :: (rest ++ setLast l2 x)
      rw [hr]
      show a :: setLast (y :: ys) x = a :: (rest ++ setLast l2 x)
      rw [← hr, ih]

/-- C1: the fade envelope's gain stream is a pure function of the number
of samples consumed: requesting `a` multipliers and then `b` multipliers
yields exactly the gain sequence and final state of one request for
`a + b` multipliers (the final boundary sample, pinned to the target
gain, included). The model has no clock input, so no wall-clock timing
can influence the gains. -/
theorem fade_multipliers_concat (e : FadeEnvelope) (a b : ℕ)
    (h : e.samples_processed + a + b ≤ e.total_samples) :
    (multipliers e a).1 ++ (multipliers (multipliers e a).2 b).1 =
        (multipliers e (a + b)).1 ∧
      (multipliers (multipliers e a).2 b).2 = (multipliers e (a + b)).2 := by
  by_cases hk : e.kind = FadeKind.noFade
  · have h1 : ∀ n, multipliers e n = (List.replicate n e.target_gain, e) := by
      intro n
      simp only [multipliers]
      rw [if_pos hk]
    rw [h1, h1, h1]
    exact ⟨(List.replicate_add a b e.target_gain).symm, rfl⟩
  · by_cases hc1 : e.total_samples ≤ e.samples_processed + a
    · have hb : b = 0 := by omega
      subst hb
      simp [multipliers, hk, hc1]
    · push_neg at hc1
      have hfst : multipliers e a =
          ((List.range a).map (sampleGain e),
            { e with samples_processed := e.samples_processed + a }) := by
        simp [multipliers, hk, not_le.mpr hc1]
      by_cases hc2 : e.total_samples ≤ e.samples_processed + (a + b)
      · have hb : b ≠ 0 := by omega
        have hsnd : multipliers { e with
            samples_processed := e.samples_processed + a } b =
            (setLast ((List.range b).map (sampleGain { e with
                samples_processed := e.samples_processed + a }))
              e.target_gain,
              { e with kind := FadeKind.noFade, samples_processed := 0 }) := by
          have : e.total_samples ≤ e.samples_processed + a + b := by omega
          simp [multipliers, hk, this]
        have hall : multipliers e (a + b) =
            (setLast ((List.range (a + b)).map (sampleGain e)) e.target_gain,
              { e with kind := FadeKind.noFade, samples_processed := 0 }) := by
          simp [multipliers, hk, hc2]
        rw [hfst, hsnd, hall]
        constructor
        · show (List.range a).map (sampleGain e) ++ _ = _
          rw [gains_split e a b,
            setLast_append _ _ _ (by simpa using hb)]
        · rfl
      · have hsnd : multipliers { e with
            samples_processed := e.samples_processed + a } b =
            ((List.range b).map (sampleGain { e with
                samples_processed := e.samples_processed + a }),
              { e with samples_processed := e.samples_processed + a + b }) := by
          have : ¬ e.total_samples ≤ e.samples_processed + a + b := by omega
          simp [multipliers, hk, this]
        have hall : multipliers e (a + b) =
            ((List.range (a + b)).map (sampleGain e),
              { e with samples_processed := e.samples_processed + (a + b) }) := by
          simp [multipliers, hk, hc2]
        rw [hfst, hsnd, hall]
        constructor
        · exact (gains_split e a b).symm
        · show ({ e with samples_processed := e.samples_processed + a + b }
              : FadeEnvelope) = _
          have : e.samples_processed + a + b =
              e.samples_processed + (a + b) := by omega
          rw [this]

/-- Witness for C1: a fading-in envelope of four samples, split 1 + 2. -/
theorem fade_multipliers_concat_witness :
    0 + 1 + 2 ≤ 4 ∧
    ((multipliers (FadeEnvelope.mk FadeKind.fadingIn FadeCurve.linear 0 1 0 4)
          1).1 ++
        (multipliers (multipliers
            (FadeEnvelope.mk FadeKind.fadingIn FadeCurve.linear 0 1 0 4) 1).2
          2).1 =
        (multipliers (FadeEnvelope.mk FadeKind.fadingIn FadeCurve.linear 0 1 0 4)
          (1 + 2)).1 ∧
      (multipliers (multipliers
          (FadeEnvelope.mk FadeKind.fadingIn FadeCurve.linear 0 1 0 4) 1).2
        2).2 =
        (multipliers (FadeEnvelope.mk FadeKind.fadingIn FadeCurve.linear 0 1 0 4)
          (1 + 2)).2) :=
  ⟨by decide,
    fade_multipliers_concat
      (FadeEnvelope.mk FadeKind.fadingIn FadeCurve.linear 0 1 0 4) 1 2
      (by decide)⟩

/-- `maxQ` is the lattice `max`. -/
theorem maxQ_eq (x lo : ℚ) : maxQ x lo = max x lo := by
  unfold maxQ
  rcases lt_or_le x lo with h | h
  · rw [if_pos h, max_eq_right h.le]
  · rw [if_neg (not_lt.mpr h), max_eq_left h]

/-- `minQ` is the lattice `min`. -/
theorem minQ_eq (y hi : ℚ) : minQ y hi = min y hi := by
  unfold minQ
  rcases lt_or_le hi y with h | h
  · rw [if_pos h, min_eq_right h.le]
  · rw [if_neg (not_lt.mpr h), min_eq_left h]

/-- `clipQ` as a lattice expression. -/
theorem clipQ_eq (x lo hi : ℚ) : clipQ x lo hi = min (max x lo) hi := by
  rw [clipQ, maxQ_eq, minQ_eq]

/-- Casting a zero sample to any dtype yields zero. -/
theorem castSample_zero (cfg : AudioConfig) : castSample cfg 0 = 0 := by
  unfold castSample
  cases cfg.dtype <;> simp [truncQ]

/-- Zero clips to zero under every dtype's sample bounds. -/
theorem clip_zero (cfg : AudioConfig) :
    clipQ 0 ((minSampleValue cfg : ℤ) : ℚ) ((maxSampleValue cfg : ℤ) : ℚ)
      = 0 := by
  rcases cfg with ⟨sr, ch, sw, bs, dt⟩
  cases dt <;>
    simp [clipQ_eq, minSampleValue, maxSampleValue, MIN_INT16, MIN_INT32,
      MAX_INT16, MAX_INT32]

/-- `getD` on a zero buffer. -/
theorem getD_replicate_zero (m i : ℕ) :
    (List.replicate m (0 : ℚ)).getD i 0 = 0 := by
  rw [List.getD_eq_getElem?_getD, List.getElem?_replicate]
  split <;> rfl

/-- C10: `max_sample_value` and `min_sample_value` are 0 for every dtype
other than int16 and int32, and the master mix — clipped to
`[min_sample_value, max_sample_value]` — is then identically zero; the
constructor accepts such a config (float32's item size being 4, the
sample width is auto-corrected to 4). -/
theorem float_config_zero_output :
    mkAudioConfig 44100 2 2 1024 Dtype.float32 =
        Except.ok ⟨44100, 2, 4, 1024, Dtype.float32⟩ ∧
      ∀ cfg : AudioConfig, cfg.dtype ≠ Dtype.int16 → cfg.dtype ≠ Dtype.int32 →
        maxSampleValue cfg = 0 ∧ minSampleValue cfg = 0 ∧
          ∀ (layers : List LayerOut) (mv : ℚ) (out : List ℚ),
            playerNextChunk cfg layers mv = some out → ∀ x ∈ out, x = 0 := by
  refine ⟨by rfl, fun cfg h16 h32 => ?_⟩
  have hmax : maxSampleValue cfg = 0 := by simp [maxSampleValue, h16, h32]
  have hmin : minSampleValue cfg = 0 := by simp [minSampleValue, h16, h32]
  refine ⟨hmax, hmin, fun layers mv out hout x hx => ?_⟩
  have hg : ∀ q : ℚ,
      castSample cfg (clipQ (q * mv) ((minSampleValue cfg : ℤ) : ℚ)
        ((maxSampleValue cfg : ℤ) : ℚ)) = 0 := by
    intro q
    have hc : clipQ (q * mv) ((minSampleValue cfg : ℤ) : ℚ)
        ((maxSampleValue cfg : ℤ) : ℚ) = 0 := by
      rw [hmin, hmax, clipQ_eq]
      push_cast
      rw [min_eq_right (le_max_right _ _)]
    rw [hc, castSample_zero]
  simp only [playerNextChunk] at hout
  by_cases ha : (layers.filter (fun l => l.status = STATUS.playing)).isEmpty
  · rw [if_pos ha] at hout
    obtain rfl : List.replicate cfg.buffer_size.toNat (0 : ℚ) = out :=
      Option.some_injective _ hout
    exact List.eq_of_mem_replicate hx
  · rw [if_neg ha] at hout
    obtain ⟨m, hm, rfl⟩ := Option.map_eq_some'.mp hout
    obtain ⟨y, hy, rfl⟩ := List.mem_map.mp hx
    exact hg y

/-- Witness for C10: the float32 config built by the constructor, with one
playing layer contributing the chunk `[3, -5]`, mixes to `[0, 0]` and
every sample of that output is zero. -/
theorem float_config_zero_output_witness :
    maxSampleValue ⟨44100, 2, 4, 2, Dtype.float32⟩ = 0 ∧
      minSampleValue ⟨44100, 2, 4, 2, Dtype.float32⟩ = 0 ∧
      ∀ x ∈ [(0 : ℚ), 0], x = 0 :=
  ⟨(float_config_zero_output.2 ⟨44100, 2, 4, 2, Dtype.float32⟩
      (by decide) (by decide)).1,
    (float_config_zero_output.2 ⟨44100, 2, 4, 2, Dtype.float32⟩
      (by decide) (by decide)).2.1,
    (float_config_zero_output.2 ⟨44100, 2, 4, 2, Dtype.float32⟩
      (by decide) (by decide)).2.2
      [⟨STATUS.playing, some [3, -5]⟩] 1 [0, 0] (by decide)⟩

/-- Scaling a chunk element-wise commutes with `getD` at the zero
default. -/
theorem getD_map_mul (c : List ℚ) (v : ℚ) (i : ℕ) :
    (c.map (fun x => x * v)).getD i 0 = c.getD i 0 * v := by
  induction c generalizing i with
  | nil => simp
  | cons a as ih =>
    cases i with
    | zero => simp
    | succ j => simpa using ih j

/-- `_adjust_length` keeps the buffer length. -/
theorem length_adjustLength (c : List ℚ) (n : ℕ) :
    (adjustLength c n).length = n := by
  unfold adjustLength
  split
  · simp
    omega
  · simp
    omega

/-- Within the buffer, `_adjust_length` preserves samples (padding and
truncation only act outside). -/
theorem getD_adjustLength (c : List ℚ) (n i : ℕ) (h : i < n) :
    (adjustLength c n).getD i 0 = c.getD i 0 := by
  unfold adjustLength
  split
  · rw [List.getD_eq_getElem?_getD, List.getD_eq_getElem?_getD]
    by_cases hi : i < c.length
    · rw [List.getElem?_append_left hi]
    · rw [List.getElem?_append_right (Nat.le_of_not_lt hi),
        List.getElem?_replicate, List.getElem?_eq_none (Nat.le_of_not_lt hi)]
      split <;> rfl
  · rw [List.getD_eq_getElem?_getD, List.getD_eq_getElem?_getD,
      List.getElem?_take, if_pos h]

/-- Element-wise addition commutes with `getD` inside both lengths. -/
theorem getD_listAdd (a b : List ℚ) (i : ℕ) (ha : i < a.length)
    (hb : i < b.length) :
    (listAdd a b).getD i 0 = a.getD i 0 + b.getD i 0 := by
  unfold listAdd
  rw [List.getD_eq_getElem?_getD, List.getD_eq_getElem?_getD,
    List.getD_eq_getElem?_getD, List.getElem?_zipWith,
    List.getElem?_eq_getElem ha, List.getElem?_eq_getElem hb]
  rfl

/-- `listAdd` of equal-length buffers keeps the length. -/
theorem length_listAdd (a b : List ℚ) (ha : a.length = n)
    (hb : b.length = n) : (listAdd a b).length = n := by
  unfold listAdd
  simp [ha, hb]

/-- One `mixStep` keeps the buffer length. -/
theorem length_mixStep (n : ℕ) (acc : List ℚ) (s : MSound)
    (h : acc.length = n) : (mixStep n acc s).length = n := by
  cases hc : s.chunk with
  | none => simpa [mixStep, hc] using h
  | some c =>
    simp only [mixStep, hc]
    split
    · exact h
    · exact length_listAdd _ _ h (length_adjustLength _ _)

/-- One `mixStep` adds exactly the sound's per-sample contribution. -/
theorem getD_mixStep (n : ℕ) (acc : List ℚ) (s : MSound) (i : ℕ)
    (hacc : acc.length = n) (hi : i < n) :
    (mixStep n acc s).getD i 0 = acc.getD i 0 + mixerContrib s i := by
  cases hc : s.chunk with
  | none => simp [mixStep, mixerContrib, hc]
  | some c =>
    simp only [mixStep, mixerContrib, hc]
    split
    · next hlen => simp [hlen]
    · next hlen =>
      rw [getD_listAdd _ _ i (by omega) (by rw [length_adjustLength]; omega),
        getD_adjustLength _ _ _ hi, getD_map_mul]

/-- The mixing fold keeps the buffer length. -/
theorem length_mixFold (n : ℕ) (sounds : List MSound) (acc : List ℚ)
    (h : acc.length = n) :
    (sounds.foldl (mixStep n) acc).length = n := by
  induction sounds generalizing acc with
  | nil => exact h
  | cons s rest ih => exact ih _ (length_mixStep n acc s h)

/-- The mixing fold computes, at every buffer position, the accumulator
plus the sum of the per-sound contributions. -/
theorem getD_mixFold (n : ℕ) (sounds : List MSound) (acc : List ℚ) (i : ℕ)
    (hacc : acc.length = n) (hi : i < n) :
    (sounds.foldl (mixStep n) acc).getD i 0 =
      acc.getD i 0 + ((sounds.map (fun s => mixerContrib s i)).sum) := by
  induction sounds generalizing acc with
  | nil => simp
  | cons s rest ih =>
    rw [List.foldl_cons, ih _ (length_mixStep n acc s hacc),
      getD_mixStep n acc s i hacc hi, List.map_cons, List.sum_cons]
    ring

/-- C5 counterexample: one playing sound of volume 1 whose chunk is
`[100, 200]`, mixed at layer/mixer volume 1 in an int16 config of two
frames. The spec formula (volume already applied by the sound, times the
layer volume) yields `[100, 200]`; `AudioMixer.get_next_chunk` yields
`[1, 2]`, because it rescales the sound's [0,1] volume by 1/100. -/
theorem mixer_chunk_counterexample :
    mixerNextChunk ⟨44100, 2, 2, 2, Dtype.int16⟩ 1
        [⟨STATUS.playing, some 1, some [100, 200]⟩] ≠
      specLayerChunk 1 [some [100, 200]] 2 := by decide

/-- C5 amended: at every buffer position, `AudioMixer.get_next_chunk` is
the clipped, dtype-cast value of the mixer's own volume (not the layer's)
times the sum over the added sounds whose status is `PLAYING` of their
chunk sample scaled by `_volume / 100` (`None` and empty chunks
contributing silence). -/
theorem mixer_next_chunk_pointwise (cfg : AudioConfig) (vol : ℚ)
    (sounds : List MSound) (i : ℕ) (h : i < cfg.buffer_size.toNat) :
    (mixerNextChunk cfg vol sounds).getD i 0 =
      castSample cfg (clipQ
        ((((sounds.filter (fun s => s.status = STATUS.playing)).map
            (fun s => mixerContrib s i)).sum) * vol)
        ((minSampleValue cfg : ℤ) : ℚ) ((maxSampleValue cfg : ℤ) : ℚ)) := by
  simp only [mixerNextChunk]
  by_cases ha : (sounds.filter (fun s => s.status = STATUS.playing)).isEmpty
  · rw [if_pos ha]
    rw [List.isEmpty_iff.mp ha]
    rw [getD_replicate_zero]
    rw [List.map_nil, List.sum_nil, zero_mul, clip_zero, castSample_zero]
  · rw [if_neg ha]
    have hlen : ((sounds.filter
        (fun s => s.status = STATUS.playing)).foldl
          (mixStep cfg.buffer_size.toNat)
          (List.replicate cfg.buffer_size.toNat 0)).length =
        cfg.buffer_size.toNat :=
      length_mixFold _ _ _ (by simp)
    have hi2 : i < ((sounds.filter
        (fun s => s.status = STATUS.playing)).foldl
          (mixStep cfg.buffer_size.toNat)
          (List.replicate cfg.buffer_size.toNat 0)).length := by omega
    rw [List.getD_eq_getElem?_getD, List.getElem?_map,
      List.getElem?_eq_getElem hi2]
    simp only [Option.map_some', Option.getD_some]
    have hfold := getD_mixFold cfg.buffer_size.toNat
      (sounds.filter (fun s => s.status = STATUS.playing))
      (List.replicate cfg.buffer_size.toNat 0) i (by simp) h
    rw [List.getD_eq_getElem?_getD, List.getElem?_eq_getElem hi2] at hfold
    simp only [Option.getD_some] at hfold
    rw [hfold, getD_replicate_zero, zero_add]

/-- Witness for C5's amended theorem at buffer position 0 of the
counterexample configuration. -/
theorem mixer_next_chunk_pointwise_witness :
    0 < (AudioConfig.mk 44100 2 2 2 Dtype.int16).buffer_size.toNat ∧
    (mixerNextChunk ⟨44100, 2, 2, 2, Dtype.int16⟩ 1
        [⟨STATUS.playing, some 1, some [100, 200]⟩]).getD 0 0 =
      castSample ⟨44100, 2, 2, 2, Dtype.int16⟩ (clipQ
        (((([(⟨STATUS.playing, some 1, some [100, 200]⟩ : MSound)].filter
            (fun s => s.status = STATUS.playing)).map
            (fun s => mixerContrib s 0)).sum) * 1)
        ((minSampleValue ⟨44100, 2, 2, 2, Dtype.int16⟩ : ℤ) : ℚ)
        ((maxSampleValue ⟨44100, 2, 2, 2, Dtype.int16⟩ : ℤ) : ℚ)) :=
  ⟨by decide,
    mixer_next_chunk_pointwise ⟨44100, 2, 2, 2, Dtype.int16⟩ 1
      [⟨STATUS.playing, some 1, some [100, 200]⟩] 0 (by decide)⟩

/-- C3 counterexample: a 3-frame file with `loop=2`, pulled in 3-frame
chunks until the sound stops, emits 6 frames — `loop · file_frames`, the
file playing `loop` times in total — not `(loop+1) · file_frames = 9` as
the claim states. -/
theorem pcm_loop_counterexample :
    pullFrames 10 (initPCM 3 (some 2)) 3 = 6 ∧ 6 ≠ (2 + 1) * 3 := by decide

/-- One mid-pass pull of `_get_raw_chunk`: a full chunk is read and the
cursor advances. -/
theorem rawChunk_mid (s m q c k : ℕ) (hs : 1 ≤ s) (hq : q < m) :
    rawChunk ⟨s * m, some (k : ℤ), s * q, c, true, STATUS.playing⟩ s =
      (some s,
        ⟨s * m, some (k : ℤ), s * q + s, c, true, STATUS.playing⟩) := by
  have hle : s ≤ s * m - s * q := by
    have h1 : s * (q + 1) ≤ s * m := Nat.mul_le_mul_left s hq
    have h2 : s * q + s = s * (q + 1) := by ring
    omega
  simp [rawChunk, pcmRead, min_eq_left hle]

/-- An end-of-pass pull of `_get_raw_chunk` with loops remaining: the
loop counter advances, the file restarts, and a full chunk is emitted. -/
theorem rawChunk_restart (s m c k : ℕ) (hs : 1 ≤ s) (hm : 1 ≤ m)
    (hcont : c + 1 < k) :
    rawChunk ⟨s * m, some (k : ℤ), s * m, c, true, STATUS.playing⟩ s =
      (some s,
        ⟨s * m, some (k : ℤ), s, c + 1, true, STATUS.playing⟩) := by
  have h1 : ¬ ((k : ℤ) = -1) := by omega
  have h2 : ((c : ℤ) + 1) < (k : ℤ) := by exact_mod_cast Nat.cast_lt.mpr hcont
  have h3 : s ≤ s * m := Nat.le_mul_of_pos_right s (by omega)
  have h0 : 0 < s := hs
  simp [rawChunk, pcmRead, checkLoop, h1, h2, h0, min_eq_left h3]

/-- The final end-of-pass pull of `_get_raw_chunk`: no loops remain, so
the decoder closes, the status becomes `STOPPED` and `None` is
returned — the partially read frames of this call are discarded. -/
theorem rawChunk_stop (s m c k : ℕ) (hs : 1 ≤ s) (hstop : ¬ c + 1 < k) :
    rawChunk ⟨s * m, some (k : ℤ), s * m, c, true, STATUS.playing⟩ s =
      (none, ⟨s * m, some (k : ℤ), 0, 0, false, STATUS.stopped⟩) := by
  have h1 : ¬ ((k : ℤ) = -1) := by omega
  have h2 : ¬ (((c : ℤ) + 1) < (k : ℤ)) := by
    intro hcontra
    apply hstop
    exact_mod_cast hcontra
  have h0 : 0 < s := hs
  simp [rawChunk, pcmRead, checkLoop, h1, h2, h0]

/-- Invariant of the pull loop, with the cursor at a chunk boundary
(`pos = s·q`) during pass `c+1` of `k`: the frames still to be emitted
are exactly `k·F` minus the `c·F + s·q` frames already emitted. -/
theorem pullFrames_invariant (s m k : ℕ) (hs : 1 ≤ s) (hm : 1 ≤ m) :
    ∀ (fuel c q : ℕ), c < k → q ≤ m →
      (k - c - 1) * (m + 1) + (m - q) + 1 ≤ fuel →
      pullFrames fuel ⟨s * m, some (k : ℤ), s * q, c, true, STATUS.playing⟩ s
          + (c * (s * m) + s * q) = k * (s * m) := by
  intro fuel
  induction fuel with
  | zero =>
    intro c q hc hq hfuel
    omega
  | succ fuel ih =>
    intro c q hc hq hfuel
    rcases Nat.lt_or_ge q m with hqm | hqm
    · rw [pullFrames, if_neg (by simp), rawChunk_mid s m q c k hs hqm]
      have hnext := ih c (q + 1) hc (by omega) (by
        set A := (k - c - 1) * (m + 1) with hA
        omega)
      have hrw : s * q + s = s * (q + 1) := by ring
      rw [hrw]
      linarith [hnext]
    · have hq2 : q = m := by omega
      rw [hq2] at hfuel ⊢
      by_cases hcont : c + 1 < k
      · rw [pullFrames, if_neg (by simp), rawChunk_restart s m c k hs hm hcont]
        have hfuel2 : (k - (c + 1) - 1) * (m + 1) + (m - 1) + 1 ≤ fuel := by
          have hsplit : (k - c - 1) * (m + 1) =
              (k - (c + 1) - 1) * (m + 1) + (m + 1) := by
            have h1 : k - c - 1 = (k - (c + 1) - 1) + 1 := by omega
            rw [h1, Nat.succ_mul]
          set A := (k - (c + 1) - 1) * (m + 1) with hA
          omega
        have hnext := ih (c + 1) 1 hcont (by omega) hfuel2
        have hrw : s * 1 = s := by ring
        rw [hrw] at hnext
        have hsucc : (c + 1) * (s * m) = c * (s * m) + s * m := by
          rw [Nat.succ_mul]
        linarith [hnext]
      · rw [pullFrames, if_neg (by simp), rawChunk_stop s m c k hs hcont]
        have hc1 : k = c + 1 := by omega
        subst hc1
        show 0 + (c * (s * m) + s * m) = (c + 1) * (s * m)
        rw [Nat.succ_mul]
        exact Nat.zero_add _

/-- C3 amended: with a finite loop limit `k ≥ 1` on the raw (unconverted)
path, pulling chunks whose size divides the file length until the sound
stops emits `k · file_frames` frames in total: the file plays `k` times —
once plus `k−1` repeats — not `k+1` times. (With a chunk size that does
not divide the file length, the frames read in the final, partial chunk
are discarded when `_get_raw_chunk` returns `None`.) -/
theorem pcm_loop_total_frames (k F s fuel : ℕ) (hk : 1 ≤ k) (hF : 1 ≤ F)
    (hs : 1 ≤ s) (hdvd : s ∣ F) (hfuel : k * (F / s + 1) ≤ fuel) :
    pullFrames fuel (initPCM F (some (k : ℤ))) s = k * F := by
  obtain ⟨m, rfl⟩ := hdvd
  have hm : 1 ≤ m := by
    rcases Nat.eq_zero_or_pos m with h0 | h1
    · subst h0
      omega
    · exact h1
  have hdiv : s * m / s = m := Nat.mul_div_cancel_left m (by omega)
  have hbound : (k - 0 - 1) * (m + 1) + (m - 0) + 1 ≤ fuel := by
    rw [hdiv] at hfuel
    have h1 : k = (k - 1) + 1 := by omega
    have hksplit : k * (m + 1) = (k - 1) * (m + 1) + (m + 1) := by
      calc k * (m + 1) = ((k - 1) + 1) * (m + 1) := by rw [← h1]
      _ = (k - 1) * (m + 1) + (m + 1) := by rw [Nat.succ_mul]
    have h2 : (k - 0 - 1) * (m + 1) = (k - 1) * (m + 1) := by norm_num
    rw [h2]
    set A := (k - 1) * (m + 1) with hA
    omega
  have h := pullFrames_invariant s m k hs hm fuel 0 0 (by omega) (by omega)
    hbound
  have h0 : s * 0 = 0 := by ring
  rw [h0] at h
  simpa [initPCM] using h

/-- Witness for C3's amended theorem: a 2-frame file, `loop=3`, pulled in
2-frame chunks with fuel 6 emits exactly 6 frames. -/
theorem pcm_loop_total_frames_witness :
    1 ≤ 3 ∧ 1 ≤ 2 ∧ 1 ≤ 2 ∧ 2 ∣ 2 ∧ 3 * (2 / 2 + 1) ≤ 6 ∧
      pullFrames 6 (initPCM 2 (some (3 : ℤ))) 2 = 3 * 2 :=
  ⟨by decide, by decide, by decide, by decide, by decide,
    pcm_loop_total_frames 3 2 2 6 (by decide) (by decide) (by decide)
      (by decide) (by decide)⟩

/-- A broadcast `for` loop over sounds (play/pause/stop) never changes
how many sounds are in the list, raised or not. -/
theorem length_broadcastR (f : Snd → Option Snd) (l : List Snd) :
    (broadcastR f l).1.length = l.length := by
  induction l with
  | nil => rfl
  | cons s rest ih =>
    unfold broadcastR
    cases hf : f s with
    | some s1 => simp [ih]
    | none => simp

/-- The promotion loop of `_thread_task` only adds sounds while
`len(current) < concurrency`, so it never pushes the current queue past
the concurrency value. -/
theorem addLoop_le (ws : List Snd) :
    ∀ (cur : List Snd) (c : ℤ), (cur.length : ℤ) ≤ c →
      ((addLoop c cur ws).1.length : ℤ) ≤ c := by
  induction ws with
  | nil =>
    intro cur c h
    exact h
  | cons w ws ih =>
    intro cur c h
    unfold addLoop
    split
    · next hlt =>
      cases hp : sndPlay w with
      | some w1 =>
        simp only [hp]
        refine ih _ _ ?_
        simp only [List.length_append, List.length_cons, List.length_nil]
        push_cast
        omega
      | none => simpa [hp] using h
    · next => exact h

/-- Reaping only removes sounds from the current queue. -/
theorem tickReap_inv (L : Layer) (h : InvL L) : InvL (tickReap L) := by
  have h2 : (L.queueCurrent.length : ℤ) ≤ L.concurrency := h
  show ((tickReap L).queueCurrent.length : ℤ) ≤ (tickReap L).concurrency
  simp only [tickReap]
  have h3 := List.length_filter_le
    (fun s => decide ¬(s.status = STATUS.stopped ∨ s.fstate = FadeState.fadingOut))
    L.queueCurrent
  omega

/-- Eviction only removes sounds from the current queue. -/
theorem tickEvict_inv (L : Layer) (h : InvL L) : InvL (tickEvict L).1 := by
  have h2 : (L.queueCurrent.length : ℤ) ≤ L.concurrency := h
  show ((tickEvict L).1.queueCurrent.length : ℤ) ≤ (tickEvict L).1.concurrency
  simp only [tickEvict]
  split
  · split
    · simp only [List.length_drop]
      omega
    · simp only [List.length_drop]
      omega
  · exact h2

/-- Promotion keeps the current queue within the concurrency bound. -/
theorem tickPromote_inv (L : Layer) (h : InvL L) : InvL (tickPromote L) := by
  have h2 : (L.queueCurrent.length : ℤ) ≤ L.concurrency := h
  show ((tickPromote L).queueCurrent.length : ℤ) ≤ (tickPromote L).concurrency
  simp only [tickPromote]
  exact addLoop_le _ _ _ h2

/-- A full supervisor iteration preserves the concurrency bound. -/
theorem tickBody_inv (L : Layer) (h : InvL L) : InvL (tickBody L) := by
  show InvL (tickBody L)
  simp only [tickBody]
  split
  · exact tickEvict_inv _ (tickReap_inv _ h)
  · exact tickPromote_inv _ (tickEvict_inv _ (tickReap_inv _ h))

/-- `clear()` leaves the current queue no longer than before (it empties
it unless a raise aborts the loop with the lengths unchanged). -/
theorem clearL_inv (L : Layer) (h : InvL L) : InvL (clearL L).1 := by
  have h2 : (L.queueCurrent.length : ℤ) ≤ L.concurrency := h
  show ((clearL L).1.queueCurrent.length : ℤ) ≤ (clearL L).1.concurrency
  simp only [clearL]
  split
  · simpa [length_broadcastR] using h2
  · split
    · simpa [length_broadcastR] using h2
    · simp only [List.length_nil]
      omega

/-- Every public operation preserves `|current| ≤ concurrency`, provided
a `set_concurrency` call never sets a value below the current size. -/
theorem stepL_inv (L : Layer) (op : LOp) (h : InvL L)
    (hop : goodOp L op = true) : InvL (stepL L op) := by
  have h2 : (L.queueCurrent.length : ℤ) ≤ L.concurrency := h
  cases op with
  | enq s => simpa [stepL, enqueueL, InvL] using h2
  | play =>
    show InvL (layerPlayL L)
    unfold InvL
    simp only [layerPlayL]
    split
    · exact h2
    · split
      · exact h2
      · simpa [length_broadcastR] using h2
  | pause =>
    show InvL (layerPauseL L)
    unfold InvL
    simp only [layerPauseL]
    split
    · exact h2
    · split
      · exact h2
      · split
        · simpa [length_broadcastR] using h2
        · simpa [length_broadcastR] using h2
  | stop =>
    show InvL (layerStopL L)
    unfold InvL
    simp only [layerStopL]
    split
    · exact h2
    · split
      · exact h2
      · split
        · exact clearL_inv L h
        · simpa using clearL_inv L h
  | clear => exact clearL_inv L h
  | setConc n =>
    simp only [goodOp, decide_eq_true_eq] at hop
    simpa [stepL, setConcurrencyL, InvL] using hop
  | setRepl b =>
    show InvL (setReplaceL L b).1
    unfold InvL
    simp only [setReplaceL]
    split
    · exact h2
    · exact h2
  | setLoopOp lp =>
    show InvL (setLoopL L lp).1
    unfold InvL
    simp only [setLoopL]
    split
    · exact h2
    · exact h2
  | tick =>
    show InvL (tickL L)
    simp only [tickL]
    split
    · exact tickBody_inv L h
    · exact h

/-- C4 counterexample: enqueue two sounds on a layer of concurrency 2,
play, let the supervisor promote both, then `set_concurrency(1)`: the
active set now has 2 sounds and the layer's concurrency is 1 — the
claimed invariant fails, because `set_concurrency` assigns without
evicting. -/
theorem layer_concurrency_counterexample :
    ¬ InvL (runL ⟨STATUS.stopped, 2, false, none, none, none, [], [], []⟩
      [LOp.enq ⟨STATUS.stopped, FadeState.fsNone⟩,
        LOp.enq ⟨STATUS.stopped, FadeState.fsNone⟩,
        LOp.play, LOp.tick, LOp.setConc 1]) := by decide

/-- C4 amended: over every sequence of public operations (enqueue, play,
pause, stop, clear, set_replace, set_loop, supervisor ticks) in which
each `set_concurrency` call sets a value at least the size of the
current active set at that moment, `|active| ≤ concurrency` holds
throughout. -/
theorem layer_concurrency_invariant (L : Layer) (ops : List LOp)
    (h : InvL L) (hg : goodTrace L ops = true) : InvL (runL L ops) := by
  induction ops generalizing L with
  | nil => simpa [runL] using h
  | cons op rest ih =>
    rw [runL]
    simp only [goodTrace, Bool.and_eq_true] at hg
    exact ih _ (stepL_inv L op h hg.1) hg.2

/-- Witness for C4's amended theorem: the counterexample trace with
`set_concurrency(5)` instead keeps the invariant. -/
theorem layer_concurrency_invariant_witness :
    InvL (⟨STATUS.stopped, 2, false, none, none, none, [], [], []⟩ : Layer) ∧
    goodTrace ⟨STATUS.stopped, 2, false, none, none, none, [], [], []⟩
      [LOp.enq ⟨STATUS.stopped, FadeState.fsNone⟩,
        LOp.enq ⟨STATUS.stopped, FadeState.fsNone⟩,
        LOp.play, LOp.tick, LOp.setConc 5] = true ∧
    InvL (runL ⟨STATUS.stopped, 2, false, none, none, none, [], [], []⟩
      [LOp.enq ⟨STATUS.stopped, FadeState.fsNone⟩,
        LOp.enq ⟨STATUS.stopped, FadeState.fsNone⟩,
        LOp.play, LOp.tick, LOp.setConc 5]) :=
  ⟨by decide, by decide,
    layer_concurrency_invariant _ _ (by decide) (by decide)⟩

end SoundPlayerModel
